import Mathlib

/-!
Shallow embedding of `src/insn.h`, a header of RISC-V instruction bit-field
accessor and encoder helpers.  The C type `u32` is embedded as `Nat`; every
operation the header performs (shift, and, or, complement) is total on `Nat`
and agrees with the 32-bit machine operation on inputs below `2 ^ 32`, with
the 32-bit complement made explicit in `u32_not`.  Functions that take a
`u32 *insn` in-out parameter are embedded in state-passing style: they take
the current instruction word and return the updated one.  The header text
contains lexical slips (missing semicolons in the three extract functions,
`GENMASK((31, 20))` written with doubled parentheses in the three update
functions, and the address-of operator missing on the three calls inside
`riscv_insn_addi`); the embedding reads them as `GENMASK(31, 20)` etc. and as
calls threading the local `insn`, the only reading under which the file has a
semantics.
-/

/-- Embedding of the C macro `RV_X(X, s, mask) = ((X >> s) & mask)`. -/
def RV_X (X s mask : Nat) : Nat :=
  (X >>> s) &&& mask

/-- Embedding of the Linux macro `GENMASK(h, l)`: the word with bits
`l .. h` set, that is `2 ^ (h + 1) - 2 ^ l`. -/
def GENMASK (h l : Nat) : Nat :=
  2 ^ (h + 1) - 2 ^ l

/-- Embedding of the C bitwise complement `~m` at type `u32`:
exclusive or against the all-ones 32-bit word. -/
def u32_not (m : Nat) : Nat :=
  (2 ^ 32 - 1) ^^^ m

/-- Embedding of `riscv_extract_imm12`: `RV_X(insn, 20, GENMASK(11, 0)) << 0`. -/
def riscv_extract_imm12 (insn : Nat) : Nat :=
  RV_X insn 20 (GENMASK 11 0) <<< 0

/-- Embedding of `riscv_insert_imm12`:
`*insn |= RV_X(value, 0, GENMASK(11, 0)) << 20`. -/
def riscv_insert_imm12 (insn value : Nat) : Nat :=
  insn ||| (RV_X value 0 (GENMASK 11 0) <<< 20)

/-- Embedding of `riscv_update_imm12`: clear bits 31..20 with
`*insn &= ~GENMASK(31, 20)` and then call `riscv_insert_imm12`. -/
def riscv_update_imm12 (insn value : Nat) : Nat :=
  riscv_insert_imm12 (insn &&& u32_not (GENMASK 31 20)) value

/-- Embedding of `riscv_extract_rd`: `RV_X(insn, 7, GENMASK(4, 0)) << 0`. -/
def riscv_extract_rd (insn : Nat) : Nat :=
  RV_X insn 7 (GENMASK 4 0) <<< 0

/-- Embedding of `riscv_insert_rd`:
`*insn |= RV_X(value, 0, GENMASK(4, 0)) << 7`. -/
def riscv_insert_rd (insn value : Nat) : Nat :=
  insn ||| (RV_X value 0 (GENMASK 4 0) <<< 7)

/-- Embedding of `riscv_update_rd`: clear bits 11..7 with
`*insn &= ~GENMASK(11, 7)` and then call `riscv_insert_rd`. -/
def riscv_update_rd (insn value : Nat) : Nat :=
  riscv_insert_rd (insn &&& u32_not (GENMASK 11 7)) value

/-- Embedding of `riscv_extract_rs1`: `RV_X(insn, 15, GENMASK(4, 0)) << 0`. -/
def riscv_extract_rs1 (insn : Nat) : Nat :=
  RV_X insn 15 (GENMASK 4 0) <<< 0

/-- Embedding of `riscv_insert_rs1`:
`*insn |= RV_X(value, 0, GENMASK(4, 0)) << 15`. -/
def riscv_insert_rs1 (insn value : Nat) : Nat :=
  insn ||| (RV_X value 0 (GENMASK 4 0) <<< 15)

/-- Embedding of `riscv_update_rs1`: clear bits 19..15 with
`*insn &= ~GENMASK(19, 15)` and then call `riscv_insert_rs1`. -/
def riscv_update_rs1 (insn value : Nat) : Nat :=
  riscv_insert_rs1 (insn &&& u32_not (GENMASK 19 15)) value

/-- Embedding of `riscv_is_addi`: `(insn & 0x707f) == 0x13`. -/
def riscv_is_addi (insn : Nat) : Bool :=
  (insn &&& 0x707f) == 0x13

/-- Embedding of `riscv_insn_addi`: start from the literal
`0b00000000000000000000000000010011` and insert `rd`, `rs1`, `imm12`. -/
def riscv_insn_addi (rd rs1 imm12 : Nat) : Nat :=
  let insn : Nat := 0b00000000000000000000000000010011
  let insn := riscv_insert_rd insn rd
  let insn := riscv_insert_rs1 insn rs1
  let insn := riscv_insert_imm12 insn imm12
  insn

/-!
Bit-level toolkit: every mask occurring in the header is a `GENMASK` or an
or of `GENMASK`s, and `GENMASK` has a closed-form `testBit`.
-/

/-- A bit of `GENMASK h l` is set exactly when its index lies in `l .. h`. -/
theorem testBit_GENMASK (h l i : Nat) :
    (GENMASK h l).testBit i = (decide (l ≤ i) && decide (i ≤ h)) := by
  unfold GENMASK
  rcases le_or_lt l (h + 1) with hle | hlt
  · have hrw : 2 ^ (h + 1) - 2 ^ l = (2 ^ (h + 1 - l) - 1) <<< l := by
      rw [Nat.shiftLeft_eq, Nat.sub_mul, Nat.one_mul, ← Nat.pow_add]
      rw [Nat.sub_add_cancel hle]
    rw [hrw, Nat.testBit_shiftLeft, Nat.testBit_two_pow_sub_one]
    rcases le_or_lt l i with hli | hli
    · have h1 : (decide (l ≤ i)) = true := by simpa using hli
      have h2 : (decide (i ≥ l)) = true := by simpa using hli
      simp only [h1, h2, Bool.true_and]
      have h3 : (i - l < h + 1 - l) ↔ (i ≤ h) := by omega
      simp [h3]
    · have h1 : (decide (l ≤ i)) = false := by simpa using Nat.not_le.mpr hli
      have h2 : (decide (i ≥ l)) = false := by simpa using Nat.not_le.mpr hli
      simp [h1, h2]
  · have hz : 2 ^ (h + 1) - 2 ^ l = 0 :=
      Nat.sub_eq_zero_of_le (Nat.pow_le_pow_right (by omega) (by omega))
    have hno : (decide (l ≤ i) && decide (i ≤ h)) = false := by
      rcases le_or_lt l i with hli | hli
      · have : ¬ i ≤ h := by omega
        simp [this]
      · have : ¬ l ≤ i := by omega
        simp [this]
    simp [hz, hno]

/-- Numeral form of the imm12 field width: `0xfff` is the bits `0 .. 11`. -/
theorem genmask_fff : (0xfff : Nat) = GENMASK 11 0 := by decide

/-- Numeral form of the register field width: `0x1f` is the bits `0 .. 4`. -/
theorem genmask_1f : (0x1f : Nat) = GENMASK 4 0 := by decide

/-- Numeral form of the `riscv_is_addi` test word: `0x707f` is the union of
the funct3 bits `12 .. 14` and the opcode bits `0 .. 6`. -/
theorem genmask_707f : (0x707f : Nat) = GENMASK 14 12 ||| GENMASK 6 0 := by decide

/-- Numeral form of the opcode width: `0x7f` is the bits `0 .. 6`. -/
theorem genmask_7f : (0x7f : Nat) = GENMASK 6 0 := by decide

/-- Numeral form of the funct3 width: `0x7` is the bits `0 .. 2`. -/
theorem genmask_7 : (0x7 : Nat) = GENMASK 2 0 := by decide

/-- Extracting a field after inserting into the same field ors the inserted
value (reduced to the field width) onto the previous field content. -/
theorem extract_insert_same (s e insn v : Nat) :
    ((insn ||| ((v &&& GENMASK e 0) <<< s)) >>> s) &&& GENMASK e 0
      = (((insn >>> s) &&& GENMASK e 0) ||| (v &&& GENMASK e 0)) := by
  apply Nat.eq_of_testBit_eq
  intro i
  simp only [Nat.testBit_or, Nat.testBit_and, Nat.testBit_shiftLeft,
    Nat.testBit_shiftRight, testBit_GENMASK, ge_iff_le, Nat.le_add_right,
    Nat.add_sub_cancel_left, Nat.zero_le, decide_True, decide_eq_true_eq]
  cases hc : decide (i ≤ e) <;> simp [hc]

/-- Extracting a field from a word whose field window was just cleared
gives zero. -/
theorem extract_cleared (s e t insn : Nat) (ht : t = s + e) (hle : t ≤ 31) :
    ((insn &&& u32_not (GENMASK t s)) >>> s) &&& GENMASK e 0 = 0 := by
  subst ht
  apply Nat.eq_of_testBit_eq
  intro i
  simp only [u32_not, Nat.testBit_or, Nat.testBit_and, Nat.testBit_xor,
    Nat.testBit_two_pow_sub_one, Nat.testBit_shiftLeft,
    Nat.testBit_shiftRight, testBit_GENMASK, ge_iff_le, Nat.le_add_right,
    Nat.add_sub_cancel_left, Nat.zero_le, Nat.zero_testBit]
  by_cases hi : i ≤ e
  · have h1 : s + i < 32 := by omega
    have h2 : s + i ≤ s + e := by omega
    simp [h1, h2]
  · simp [hi]

/-- Outside its window, inserting a field leaves every bit unchanged. -/
theorem insert_outside_bit (s e insn v i : Nat) (hout : i < s ∨ s + e < i) :
    (insn ||| ((v &&& GENMASK e 0) <<< s)).testBit i = insn.testBit i := by
  simp only [Nat.testBit_or, Nat.testBit_and, Nat.testBit_shiftLeft,
    testBit_GENMASK, ge_iff_le, Nat.zero_le, decide_True, decide_eq_true_eq]
  rcases hout with h | h
  · have hs : ¬ s ≤ i := by omega
    simp [hs]
  · by_cases hs : s ≤ i
    · have he : ¬ (i - s ≤ e) := by omega
      simp [he]
    · simp [hs]

/-- Outside its window, updating a field leaves every bit below 32
unchanged. -/
theorem update_outside_bit (s e t insn v i : Nat) (ht : t = s + e)
    (hi : i < 32) (hout : i < s ∨ t < i) :
    ((insn &&& u32_not (GENMASK t s)) ||| ((v &&& GENMASK e 0) <<< s)).testBit i
      = insn.testBit i := by
  subst ht
  simp only [u32_not, Nat.testBit_or, Nat.testBit_and, Nat.testBit_xor,
    Nat.testBit_two_pow_sub_one, Nat.testBit_shiftLeft, testBit_GENMASK,
    ge_iff_le, Nat.zero_le, decide_True, decide_eq_true_eq]
  rcases hout with h | h
  · have hs : ¬ s ≤ i := by omega
    simp [hs, hi]
  · by_cases hs : s ≤ i
    · have h1 : ¬ i ≤ s + e := by omega
      have h2 : ¬ (i - s ≤ e) := by omega
      simp [h1, h2, hi]
    · simp [hs, hi]

/-- Extracting one field is unaffected by an insert into a disjoint
window. -/
theorem extract_insert_other (s e t f insn v : Nat)
    (hd : s + e < t ∨ t + f < s) :
    ((insn ||| ((v &&& GENMASK f 0) <<< t)) >>> s) &&& GENMASK e 0
      = (insn >>> s) &&& GENMASK e 0 := by
  apply Nat.eq_of_testBit_eq
  intro i
  simp only [Nat.testBit_or, Nat.testBit_and, Nat.testBit_shiftLeft,
    Nat.testBit_shiftRight, testBit_GENMASK, ge_iff_le, Nat.zero_le,
    decide_eq_true_eq]
  by_cases hie : i ≤ e
  · by_cases htl : t ≤ s + i
    · have hf : ¬ (s + i - t ≤ f) := by omega
      simp [hf]
    · simp [htl]
  · simp [hie]

/-- Inserting into a window above bit 6 that avoids bits 12 .. 14 does not
change the word's and with the `riscv_is_addi` test bits. -/
theorem insert_keeps_addi_bits (t f insn v : Nat)
    (hd : 6 < t ∧ (t + f < 12 ∨ 14 < t)) :
    ((insn ||| ((v &&& GENMASK f 0) <<< t)) &&& (GENMASK 14 12 ||| GENMASK 6 0))
      = insn &&& (GENMASK 14 12 ||| GENMASK 6 0) := by
  obtain ⟨hd1, hd2⟩ := hd
  apply Nat.eq_of_testBit_eq
  intro i
  simp only [Nat.testBit_or, Nat.testBit_and, Nat.testBit_shiftLeft,
    testBit_GENMASK, ge_iff_le, Nat.zero_le, decide_True, Bool.true_and,
    decide_eq_true_eq]
  by_cases hm : (12 ≤ i ∧ i ≤ 14) ∨ i ≤ 6
  · have hIns : (decide (t ≤ i) && (v.testBit (i - t) && decide (i - t ≤ f)))
        = false := by
      by_cases htl : t ≤ i
      · have hf : ¬ (i - t ≤ f) := by
          rcases hm with ⟨h1, h2⟩ | h1 <;> rcases hd2 with h | h <;> omega
        simp [hf]
      · simp [htl]
    rw [hIns]
    simp
  · simp only [not_or, not_and, not_le] at hm
    obtain ⟨hma, hmb⟩ := hm
    have hM : (decide (12 ≤ i) && decide (i ≤ 14) || decide (i ≤ 6)) = false := by
      by_cases h3 : 12 ≤ i
      · have h4 : ¬ i ≤ 14 := by have := hma h3; omega
        have h5 : ¬ i ≤ 6 := by omega
        simp [h3, h4, h5]
      · have h5 : ¬ i ≤ 6 := by omega
        simp [h3, h5]
    rw [hM]
    simp

/-- Clearing a window above bit 6 that avoids bits 12 .. 14 does not change
the word's and with the `riscv_is_addi` test bits. -/
theorem clear_keeps_addi_bits (s t insn : Nat) (hle : t ≤ 31)
    (hd : 6 < s ∧ (t < 12 ∨ 14 < s)) :
    ((insn &&& u32_not (GENMASK t s)) &&& (GENMASK 14 12 ||| GENMASK 6 0))
      = insn &&& (GENMASK 14 12 ||| GENMASK 6 0) := by
  obtain ⟨hd1, hd2⟩ := hd
  apply Nat.eq_of_testBit_eq
  intro i
  simp only [u32_not, Nat.testBit_or, Nat.testBit_and, Nat.testBit_xor,
    Nat.testBit_two_pow_sub_one, testBit_GENMASK, ge_iff_le, Nat.zero_le,
    decide_True, Bool.true_and, decide_eq_true_eq]
  by_cases hm : (12 ≤ i ∧ i ≤ 14) ∨ i ≤ 6
  · have h32 : i < 32 := by rcases hm with ⟨h1, h2⟩ | h1 <;> omega
    have hw : (decide (s ≤ i) && decide (i ≤ t)) = false := by
      by_cases hsl : s ≤ i
      · have hf : ¬ i ≤ t := by
          rcases hm with ⟨h1, h2⟩ | h1 <;> rcases hd2 with h | h <;> omega
        simp [hf]
      · simp [hsl]
    rw [hw]
    simp [h32]
  · simp only [not_or, not_and, not_le] at hm
    obtain ⟨hma, hmb⟩ := hm
    have hM : (decide (12 ≤ i) && decide (i ≤ 14) || decide (i ≤ 6)) = false := by
      by_cases h3 : 12 ≤ i
      · have h4 : ¬ i ≤ 14 := by have := hma h3; omega
        have h5 : ¬ i ≤ 6 := by omega
        simp [h3, h4, h5]
      · have h5 : ¬ i ≤ 6 := by omega
        simp [h3, h5]
    rw [hM]
    simp

/-- Clearing a window wipes whatever an insert into that window just
wrote. -/
theorem insert_then_clear (s e t insn v : Nat) (ht : t = s + e) (hle : t ≤ 31) :
    ((insn ||| ((v &&& GENMASK e 0) <<< s)) &&& u32_not (GENMASK t s))
      = insn &&& u32_not (GENMASK t s) := by
  subst ht
  apply Nat.eq_of_testBit_eq
  intro i
  simp only [u32_not, Nat.testBit_or, Nat.testBit_and, Nat.testBit_xor,
    Nat.testBit_two_pow_sub_one, Nat.testBit_shiftLeft, testBit_GENMASK,
    ge_iff_le, Nat.zero_le, decide_True, Bool.true_and, decide_eq_true_eq]
  by_cases hs : s ≤ i
  · by_cases hte : i ≤ s + e
    · have h32 : i < 32 := by omega
      simp [hs, hte, h32]
    · have hf : ¬ (i - s ≤ e) := by omega
      simp [hf]
  · simp [hs]

/-- Anding twice with the same word is the same as anding once. -/
theorem and_self_twice (a m : Nat) : (a &&& m) &&& m = a &&& m := by
  rw [Nat.and_assoc, Nat.and_self]

/-- Splitting the `riscv_is_addi` test bits of a word into its funct3 part
(bits 12 .. 14) and its opcode part (bits 0 .. 6). -/
theorem and_707f_decomp (insn : Nat) :
    insn &&& 0x707f = 4096 * ((insn >>> 12) &&& 0x7) + (insn &&& 0x7f) := by
  have h4096 : (4096 : Nat) = 2 ^ 12 := by decide
  have hb : insn &&& 0x7f < 2 ^ 12 :=
    Nat.lt_of_le_of_lt Nat.and_le_right (by decide)
  rw [h4096, Nat.mul_add_lt_is_or hb]
  rw [genmask_707f, genmask_7, genmask_7f]
  apply Nat.eq_of_testBit_eq
  intro i
  simp only [Nat.testBit_or, Nat.testBit_and, Nat.testBit_shiftRight,
    testBit_GENMASK, Nat.testBit_mul_pow_two, ge_iff_le, Nat.zero_le,
    decide_True, Bool.true_and, decide_eq_true_eq]
  by_cases h12 : 12 ≤ i
  · have hidx : 12 + (i - 12) = i := by omega
    rw [hidx]
    have h6 : ¬ i ≤ 6 := by omega
    have h14 : decide (i ≤ 14) = decide (i - 12 ≤ 2) :=
      decide_eq_decide.mpr (by omega)
    rw [h14]
    simp [h12, h6]
  · simp [h12]

/-- C5.  Every extractor masks its result down to the field width, so the
result of `riscv_extract_imm12` is below `2 ^ 12` and the results of
`riscv_extract_rd` and `riscv_extract_rs1` are below `2 ^ 5`, for every
instruction word, with no error path. -/
theorem riscv_extract_in_range (insn : Nat) :
    riscv_extract_imm12 insn < 2 ^ 12 ∧
    riscv_extract_rd insn < 2 ^ 5 ∧
    riscv_extract_rs1 insn < 2 ^ 5 := by
  refine ⟨?_, ?_, ?_⟩ <;>
    simp only [riscv_extract_imm12, riscv_extract_rd, riscv_extract_rs1,
      RV_X, Nat.shiftLeft_zero] <;>
    exact Nat.lt_of_le_of_lt (Nat.and_le_right) (by decide)

/-- C1.  For every `rd`, `rs1` and `imm12`, the word built by
`riscv_insn_addi` is recognised by `riscv_is_addi`. -/
theorem riscv_insn_addi_is_addi (rd rs1 imm12 : Nat) :
    riscv_is_addi (riscv_insn_addi rd rs1 imm12) = true := by
  have hkey : riscv_insn_addi rd rs1 imm12 &&& (GENMASK 14 12 ||| GENMASK 6 0)
      = 0x13 := by
    simp only [riscv_insn_addi, riscv_insert_rd, riscv_insert_rs1,
      riscv_insert_imm12, RV_X, Nat.shiftRight_zero]
    rw [insert_keeps_addi_bits 20 11 _ _ ⟨by omega, Or.inr (by omega)⟩,
      insert_keeps_addi_bits 15 4 _ _ ⟨by omega, Or.inr (by omega)⟩,
      insert_keeps_addi_bits 7 4 _ _ ⟨by omega, Or.inl (by omega)⟩]
    decide
  simp only [riscv_is_addi, genmask_707f, hkey]
  decide

/-- C2.  The fields of the word built by `riscv_insn_addi rd rs1 imm12`
decode back to the masked inputs: `riscv_extract_rd` gives `rd &&& 0x1f`,
`riscv_extract_rs1` gives `rs1 &&& 0x1f` and `riscv_extract_imm12` gives
`imm12 &&& 0xfff`. -/
theorem riscv_insn_addi_fields_decode (rd rs1 imm12 : Nat) :
    riscv_extract_rd (riscv_insn_addi rd rs1 imm12) = rd &&& 0x1f ∧
    riscv_extract_rs1 (riscv_insn_addi rd rs1 imm12) = rs1 &&& 0x1f ∧
    riscv_extract_imm12 (riscv_insn_addi rd rs1 imm12) = imm12 &&& 0xfff := by
  refine ⟨?_, ?_, ?_⟩
  · rw [genmask_1f]
    simp only [riscv_insn_addi, riscv_extract_rd, riscv_insert_rd,
      riscv_insert_rs1, riscv_insert_imm12, RV_X, Nat.shiftLeft_zero,
      Nat.shiftRight_zero]
    rw [extract_insert_other 7 4 20 11 _ _ (by omega),
      extract_insert_other 7 4 15 4 _ _ (by omega),
      extract_insert_same]
    have h0 : ((0b00000000000000000000000000010011 : Nat) >>> 7) &&&
        GENMASK 4 0 = 0 := by decide
    rw [h0, Nat.zero_or]
  · rw [genmask_1f]
    simp only [riscv_insn_addi, riscv_extract_rs1, riscv_insert_rd,
      riscv_insert_rs1, riscv_insert_imm12, RV_X, Nat.shiftLeft_zero,
      Nat.shiftRight_zero]
    rw [extract_insert_other 15 4 20 11 _ _ (by omega),
      extract_insert_same,
      extract_insert_other 15 4 7 4 _ _ (by omega)]
    have h0 : ((0b00000000000000000000000000010011 : Nat) >>> 15) &&&
        GENMASK 4 0 = 0 := by decide
    rw [h0, Nat.zero_or]
  · rw [genmask_fff]
    simp only [riscv_insn_addi, riscv_extract_imm12, riscv_insert_rd,
      riscv_insert_rs1, riscv_insert_imm12, RV_X, Nat.shiftLeft_zero,
      Nat.shiftRight_zero]
    rw [extract_insert_same,
      extract_insert_other 20 11 15 4 _ _ (by omega),
      extract_insert_other 20 11 7 4 _ _ (by omega)]
    have h0 : ((0b00000000000000000000000000010011 : Nat) >>> 20) &&&
        GENMASK 11 0 = 0 := by decide
    rw [h0, Nat.zero_or]

/-- C3.  Inserting a value into an all-zero word and then extracting the
same field returns the value reduced to the field width, for each of the
three fields. -/
theorem riscv_insert_extract_from_zero (v : Nat) :
    riscv_extract_imm12 (riscv_insert_imm12 0 v) = v &&& 0xfff ∧
    riscv_extract_rd (riscv_insert_rd 0 v) = v &&& 0x1f ∧
    riscv_extract_rs1 (riscv_insert_rs1 0 v) = v &&& 0x1f := by
  refine ⟨?_, ?_, ?_⟩
  · rw [genmask_fff]
    simp only [riscv_extract_imm12, riscv_insert_imm12, RV_X,
      Nat.shiftLeft_zero, Nat.shiftRight_zero]
    rw [extract_insert_same]
    simp
  · rw [genmask_1f]
    simp only [riscv_extract_rd, riscv_insert_rd, RV_X,
      Nat.shiftLeft_zero, Nat.shiftRight_zero]
    rw [extract_insert_same]
    simp
  · rw [genmask_1f]
    simp only [riscv_extract_rs1, riscv_insert_rs1, RV_X,
      Nat.shiftLeft_zero, Nat.shiftRight_zero]
    rw [extract_insert_same]
    simp

/-- C4.  After an update, extracting the updated field returns the new
value reduced to the field width, whatever the field held before, for each
of the three fields. -/
theorem riscv_update_extract (insn v : Nat) :
    riscv_extract_imm12 (riscv_update_imm12 insn v) = v &&& 0xfff ∧
    riscv_extract_rd (riscv_update_rd insn v) = v &&& 0x1f ∧
    riscv_extract_rs1 (riscv_update_rs1 insn v) = v &&& 0x1f := by
  refine ⟨?_, ?_, ?_⟩
  · rw [genmask_fff]
    simp only [riscv_extract_imm12, riscv_update_imm12, riscv_insert_imm12,
      RV_X, Nat.shiftLeft_zero, Nat.shiftRight_zero]
    rw [extract_insert_same, extract_cleared 20 11 31 _ rfl (by omega)]
    simp
  · rw [genmask_1f]
    simp only [riscv_extract_rd, riscv_update_rd, riscv_insert_rd,
      RV_X, Nat.shiftLeft_zero, Nat.shiftRight_zero]
    rw [extract_insert_same, extract_cleared 7 4 11 _ rfl (by omega)]
    simp
  · rw [genmask_1f]
    simp only [riscv_extract_rs1, riscv_update_rs1, riscv_insert_rs1,
      RV_X, Nat.shiftLeft_zero, Nat.shiftRight_zero]
    rw [extract_insert_same, extract_cleared 15 4 19 _ rfl (by omega)]
    simp

/-- C6.  Every function of the header is stateless and deterministic:
equal argument values (including the pointed-to word for insert and
update) give equal results. -/
theorem riscv_helpers_deterministic :
    (∀ a b, a = b → riscv_extract_imm12 a = riscv_extract_imm12 b) ∧
    (∀ a b, a = b → riscv_extract_rd a = riscv_extract_rd b) ∧
    (∀ a b, a = b → riscv_extract_rs1 a = riscv_extract_rs1 b) ∧
    (∀ a b v w, a = b → v = w → riscv_insert_imm12 a v = riscv_insert_imm12 b w) ∧
    (∀ a b v w, a = b → v = w → riscv_insert_rd a v = riscv_insert_rd b w) ∧
    (∀ a b v w, a = b → v = w → riscv_insert_rs1 a v = riscv_insert_rs1 b w) ∧
    (∀ a b v w, a = b → v = w → riscv_update_imm12 a v = riscv_update_imm12 b w) ∧
    (∀ a b v w, a = b → v = w → riscv_update_rd a v = riscv_update_rd b w) ∧
    (∀ a b v w, a = b → v = w → riscv_update_rs1 a v = riscv_update_rs1 b w) ∧
    (∀ a b, a = b → riscv_is_addi a = riscv_is_addi b) ∧
    (∀ a b c d e f, a = b → c = d → e = f →
      riscv_insn_addi a c e = riscv_insn_addi b d f) := by
  refine ⟨?_, ?_, ?_, ?_, ?_, ?_, ?_, ?_, ?_, ?_, ?_⟩ <;>
    intros <;> subst_vars <;> rfl

/-- Witness for C6 at concrete inputs. -/
theorem riscv_helpers_deterministic_witness :
    riscv_insn_addi 1 2 3 = riscv_insn_addi 1 2 3 :=
  riscv_helpers_deterministic.2.2.2.2.2.2.2.2.2.2 1 1 2 2 3 3 rfl rfl rfl

/-- C7.  Updating a field twice is the same as updating it once with the
last value, and in particular updating twice with the same value equals
updating once, for each of the three fields. -/
theorem riscv_update_last_write_wins (insn v1 v2 : Nat) :
    riscv_update_imm12 (riscv_update_imm12 insn v1) v2
      = riscv_update_imm12 insn v2 ∧
    riscv_update_rd (riscv_update_rd insn v1) v2
      = riscv_update_rd insn v2 ∧
    riscv_update_rs1 (riscv_update_rs1 insn v1) v2
      = riscv_update_rs1 insn v2 ∧
    riscv_update_imm12 (riscv_update_imm12 insn v1) v1
      = riscv_update_imm12 insn v1 ∧
    riscv_update_rd (riscv_update_rd insn v1) v1
      = riscv_update_rd insn v1 ∧
    riscv_update_rs1 (riscv_update_rs1 insn v1) v1
      = riscv_update_rs1 insn v1 := by
  refine ⟨?_, ?_, ?_, ?_, ?_, ?_⟩ <;>
    simp only [riscv_update_imm12, riscv_insert_imm12, riscv_update_rd,
      riscv_insert_rd, riscv_update_rs1, riscv_insert_rs1, RV_X,
      Nat.shiftRight_zero]
  · rw [insert_then_clear 20 11 31 _ _ rfl (by omega), and_self_twice]
  · rw [insert_then_clear 7 4 11 _ _ rfl (by omega), and_self_twice]
  · rw [insert_then_clear 15 4 19 _ _ rfl (by omega), and_self_twice]
  · rw [insert_then_clear 20 11 31 _ _ rfl (by omega), and_self_twice]
  · rw [insert_then_clear 7 4 11 _ _ rfl (by omega), and_self_twice]
  · rw [insert_then_clear 15 4 19 _ _ rfl (by omega), and_self_twice]

/-- C8.  `riscv_is_addi insn` is true exactly when the opcode bits 0 .. 6
equal `0x13` and the funct3 bits 12 .. 14 equal 0, that is exactly when
`insn &&& 0x707f = 0x13`; the rd, rs1 and imm12 bits are ignored, so
updating any of those fields never changes the verdict. -/
theorem riscv_is_addi_spec (insn : Nat) :
    (riscv_is_addi insn = true ↔
      (insn &&& 0x7f = 0x13 ∧ (insn >>> 12) &&& 0x7 = 0)) ∧
    (riscv_is_addi insn = true ↔ insn &&& 0x707f = 0x13) ∧
    (∀ v, riscv_is_addi (riscv_update_rd insn v) = riscv_is_addi insn ∧
      riscv_is_addi (riscv_update_rs1 insn v) = riscv_is_addi insn ∧
      riscv_is_addi (riscv_update_imm12 insn v) = riscv_is_addi insn) := by
  have hbeq : riscv_is_addi insn = true ↔ insn &&& 0x707f = 0x13 := by
    simp [riscv_is_addi]
  refine ⟨?_, hbeq, fun v => ⟨?_, ?_, ?_⟩⟩
  · rw [hbeq, and_707f_decomp]
    have ha : insn &&& 0x7f ≤ 0x7f := Nat.and_le_right
    omega
  · simp only [riscv_is_addi, riscv_update_rd, riscv_insert_rd, RV_X,
      Nat.shiftRight_zero, genmask_707f]
    rw [insert_keeps_addi_bits 7 4 _ _ ⟨by omega, Or.inl (by omega)⟩,
      clear_keeps_addi_bits 7 11 _ (by omega) ⟨by omega, Or.inl (by omega)⟩]
  · simp only [riscv_is_addi, riscv_update_rs1, riscv_insert_rs1, RV_X,
      Nat.shiftRight_zero, genmask_707f]
    rw [insert_keeps_addi_bits 15 4 _ _ ⟨by omega, Or.inr (by omega)⟩,
      clear_keeps_addi_bits 15 19 _ (by omega) ⟨by omega, Or.inr (by omega)⟩]
  · simp only [riscv_is_addi, riscv_update_imm12, riscv_insert_imm12, RV_X,
      Nat.shiftRight_zero, genmask_707f]
    rw [insert_keeps_addi_bits 20 11 _ _ ⟨by omega, Or.inr (by omega)⟩,
      clear_keeps_addi_bits 20 31 _ (by omega) ⟨by omega, Or.inr (by omega)⟩]

/-- C9.  Each insert and update function changes only the bits of its own
field: every bit of the 32-bit word outside bits 31..20 (imm12), 11..7
(rd) or 19..15 (rs1) respectively is left unchanged. -/
theorem riscv_field_frame (insn v i : Nat) (hi : i < 32) :
    (¬ (20 ≤ i ∧ i ≤ 31) →
      ((riscv_insert_imm12 insn v).testBit i = insn.testBit i ∧
       (riscv_update_imm12 insn v).testBit i = insn.testBit i)) ∧
    (¬ (7 ≤ i ∧ i ≤ 11) →
      ((riscv_insert_rd insn v).testBit i = insn.testBit i ∧
       (riscv_update_rd insn v).testBit i = insn.testBit i)) ∧
    (¬ (15 ≤ i ∧ i ≤ 19) →
      ((riscv_insert_rs1 insn v).testBit i = insn.testBit i ∧
       (riscv_update_rs1 insn v).testBit i = insn.testBit i)) := by
  refine ⟨fun hout => ⟨?_, ?_⟩, fun hout => ⟨?_, ?_⟩, fun hout => ⟨?_, ?_⟩⟩
  · simp only [riscv_insert_imm12, RV_X, Nat.shiftRight_zero]
    exact insert_outside_bit 20 11 insn v i (by omega)
  · simp only [riscv_update_imm12, riscv_insert_imm12, RV_X,
      Nat.shiftRight_zero]
    exact update_outside_bit 20 11 31 insn v i rfl hi (by omega)
  · simp only [riscv_insert_rd, RV_X, Nat.shiftRight_zero]
    exact insert_outside_bit 7 4 insn v i (by omega)
  · simp only [riscv_update_rd, riscv_insert_rd, RV_X, Nat.shiftRight_zero]
    exact update_outside_bit 7 4 11 insn v i rfl hi (by omega)
  · simp only [riscv_insert_rs1, RV_X, Nat.shiftRight_zero]
    exact insert_outside_bit 15 4 insn v i (by omega)
  · simp only [riscv_update_rs1, riscv_insert_rs1, RV_X, Nat.shiftRight_zero]
    exact update_outside_bit 15 4 19 insn v i rfl hi (by omega)

/-- Witness for C9 at a concrete word, value and bit index. -/
theorem riscv_field_frame_witness :
    (riscv_insert_imm12 5 7).testBit 0 = (5 : Nat).testBit 0 ∧
    (riscv_update_imm12 5 7).testBit 0 = (5 : Nat).testBit 0 :=
  (riscv_field_frame 5 7 0 (by decide)).1 (by decide)

/-- C10.  The insert functions or the new value into the field instead of
overwriting it: the extracted field after an insert is the old field bits
ored with the masked value; in particular inserting 0 into a word whose
imm12 field is all ones leaves the field at `0xfff`, not at `0 &&& 0xfff`
which is 0. -/
theorem riscv_insert_or_semantics (insn v : Nat) :
    riscv_extract_imm12 (riscv_insert_imm12 insn v)
      = riscv_extract_imm12 insn ||| (v &&& 0xfff) ∧
    riscv_extract_rd (riscv_insert_rd insn v)
      = riscv_extract_rd insn ||| (v &&& 0x1f) ∧
    riscv_extract_rs1 (riscv_insert_rs1 insn v)
      = riscv_extract_rs1 insn ||| (v &&& 0x1f) ∧
    riscv_extract_imm12 (riscv_insert_imm12 0xfff00000 0) = 0xfff ∧
    (0 : Nat) &&& 0xfff = 0 := by
  refine ⟨?_, ?_, ?_, by decide, by decide⟩
  · rw [genmask_fff]
    simp only [riscv_extract_imm12, riscv_insert_imm12, RV_X,
      Nat.shiftLeft_zero, Nat.shiftRight_zero]
    rw [extract_insert_same]
  · rw [genmask_1f]
    simp only [riscv_extract_rd, riscv_insert_rd, RV_X,
      Nat.shiftLeft_zero, Nat.shiftRight_zero]
    rw [extract_insert_same]
  · rw [genmask_1f]
    simp only [riscv_extract_rs1, riscv_insert_rs1, RV_X,
      Nat.shiftLeft_zero, Nat.shiftRight_zero]
    rw [extract_insert_same]
